import Mathlib

/-!
Verification development for the PassKit duplicate-ID search / recycle-assignment
tool (`src/app.py`).  The Python source is shallowly embedded below: pure helpers
become Lean functions over `String` (viewed through its character list, so that
every definition is executable and kernel-reducible), the pandas data frame of
hit rows becomes `List Row`, collaborator calls (`requests`, `json.loads`,
`pd.to_datetime`) become explicit function parameters, and the Streamlit event
handlers become state-passing functions.
-/

namespace Passkit

/-! ## Python string primitives

Lean's built-in `String.trim`/`String.splitOn`/`String.toUpper` are opaque to
kernel reduction, so the Python `str` methods used by the source are modelled
directly on the character list of the string.  `String` in Lean is definitionally
a wrapper around `List Char`, hence these are faithful, executable models of
`str.strip`, `str.split("\n")`, `str.upper` (ASCII), and `str.replace(" ", "")`.
-/

/-- Characters stripped by Python `str.strip()` (ASCII whitespace). -/
def trimChars (cs : List Char) : List Char :=
  ((cs.dropWhile Char.isWhitespace).reverse.dropWhile Char.isWhitespace).reverse

/-- Python `s.strip()`. -/
def pyStrip (s : String) : String := ⟨trimChars s.data⟩

/-- Split a character list at newline characters; models Python `s.split("\n")`
(`"".split("\n") == [""]`, a trailing newline yields a final empty piece). -/
def splitNl : List Char → List (List Char)
  | [] => [[]]
  | c :: rest =>
    if c = '\n' then [] :: splitNl rest
    else
      match splitNl rest with
      | [] => [[c]]
      | l :: ls => (c :: l) :: ls

/-- Python `s.split("\n")`. -/
def pySplitLines (s : String) : List String := (splitNl s.data).map (fun cs => ⟨cs⟩)

/-- Python `s.upper()` (ASCII case folding, which covers every string the
source compares: `"NULL"`). -/
def pyUpper (s : String) : String := ⟨s.data.map Char.toUpper⟩

/-- `app.py` `is_blank` (lines 146-150) restricted to an actual string value:
`str(v).strip()` is empty or upper-cases to `"NULL"`. -/
def is_blank (s : String) : Bool :=
  let t := pyStrip s
  t.data.isEmpty || (pyUpper t == "NULL")

/-- `app.py` `is_blank` on an optional value: Python `is_blank(None) == True`
(`v is None` branch), otherwise the string case. -/
def blankOpt : Option String → Bool
  | none => true
  | some s => is_blank s

/-- `app.py` `normalize_name` (lines 152-156): strip, then optionally remove
every space character (Python `s.replace(" ", "")`). -/
def normalize_name (s : String) (remove_spaces : Bool) : String :=
  let t := pyStrip s
  if remove_spaces then ⟨t.data.filter (fun c => c ≠ ' ')⟩ else t

/-! ## Hit rows

One element of the `hits_rows` session list, as built by `extract_member_rows`
(lines 163-200).  The dictionary keys become fields; `cardNumber` and `lockVal`
are `Option String` so that the dictionary-absence cases probed by
`is_recyclable_row` (`row.get(...) is None`, `lock_col not in row`) are
representable.  `created`/`updated` stay raw strings; `pd.to_datetime(...,
errors="coerce")` is an external library call and is passed in as a parameter
`toDT : String → Option Nat` (`none` models `NaT`, `some n` a parsed instant).
-/

structure Row where
  searchName : String
  displayName : String
  memberId : String
  passStatus : String
  cardNumber : Option String
  lockVal : Option String
  created : String
  updated : String
deriving Repr, DecidableEq

/-- `app.py` `is_recyclable_row` (lines 221-228):
`row.get("passStatus") == "PASS_ISSUED" and is_blank(row.get("meta.cardNumber"))
and (lock_col not in row or is_blank(row.get(lock_col)))`.
In the data flow the lock column name computed at line 427 matches the key
written by `extract_member_rows`, so dictionary lookup of the lock column is
`Row.lockVal`; `lockVal = none` is the `lock_col not in row` case. -/
def is_recyclable_row (row : Row) : Bool :=
  (row.passStatus == "PASS_ISSUED")
    && blankOpt row.cardNumber
    && (row.lockVal.isNone || blankOpt row.lockVal)

/-! ## Stable sorting

`pandas.DataFrame.sort_values` on several key columns uses a stable lexicographic
sort (`np.lexsort`), and a stable sort under a total preorder is unique, so it is
modelled by insertion sort, which is structural and hence kernel-executable. -/

/-- Insert `x` into `l`, before the first element `y` with `le x y`; keeps `x`
in front of elements that tie with it, which together with `stableSort`
processing the list front-to-back yields stability. -/
def insertLE {α : Type} (le : α → α → Bool) (x : α) : List α → List α
  | [] => [x]
  | y :: ys => if le x y then x :: y :: ys else y :: insertLE le x ys

/-- Stable sort with respect to the boolean preorder `le`. -/
def stableSort {α : Type} (le : α → α → Bool) : List α → List α
  | [] => []
  | x :: xs => insertLE le x (stableSort le xs)

/-- Key order used by `sort_values(["updated", "created"], ascending=[False,
False], na_position="last")` on one column: parsed values descending, `NaT`
after every parsed value. -/
def dtLE : Option Nat → Option Nat → Bool
  | some a, some b => b ≤ a
  | some _, none => true
  | none, some _ => false
  | none, none => true

/-- Row comparison of the two-column sort: primary key `updated` (descending,
`NaT` last), ties decided by `created` the same way. -/
def rowLE (toDT : String → Option Nat) (r s : Row) : Bool :=
  if toDT r.updated = toDT s.updated then dtLE (toDT r.created) (toDT s.created)
  else dtLE (toDT r.updated) (toDT s.updated)

/-- The per-group sort of `choose_duplicate_recycle_candidates` (lines 249-253):
sort `(updated, created)` descending with unparseable timestamps last whenever
the group has any parseable `updated` or `created`, otherwise keep the
server-returned order (`g.copy()`). -/
def sortGroup (toDT : String → Option Nat) (g : List Row) : List Row :=
  if g.any (fun r => (toDT r.updated).isSome) || g.any (fun r => (toDT r.created).isSome) then
    stableSort (rowLE toDT) g
  else g

/-! ## Grouping and candidate selection -/

/-- Python `<=` on strings: lexicographic by code point.  (Lean's own
`String.le` is propositionally the same order but does not kernel-reduce.) -/
def strLEChars : List Char → List Char → Bool
  | [], _ => true
  | _ :: _, [] => false
  | a :: as, b :: bs => if a = b then strLEChars as bs else a.toNat ≤ b.toNat

/-- Python `<=` on strings. -/
def strLE (a b : String) : Bool := strLEChars a.data b.data

/-- Order-preserving exact deduplication; models the Python idiom
`seen = set(); [x for x in xs if not (x in seen or seen.add(x))]`
(line 539): keep the first occurrence of each string. -/
def dedupeKeepOrder : List String → List String
  | [] => []
  | x :: rest => x :: (dedupeKeepOrder rest).filter (fun y => y ≠ x)

/-- The group keys of `work.groupby("displayName", dropna=False)` iterated at
line 245: the distinct values of the `displayName` column, in ascending key
order (pandas `groupby` sorts group keys by default). -/
def groupKeys (hits : List Row) : List String :=
  stableSort strLE (dedupeKeepOrder (hits.map (fun r => r.displayName)))

/-- The groups produced by `work.groupby("displayName", dropna=False)`: one
group per distinct `displayName`, each group listing its rows in the original
row order. -/
def groupsOf (hits : List Row) : List (String × List Row) :=
  (groupKeys hits).map (fun k => (k, hits.filter (fun r => r.displayName == k)))

/-- Body of the `for _, g in work.groupby(...)` loop (lines 245-259): a group
with at most one row is skipped, otherwise the newest row (first after the
sort) is kept and every remaining row satisfying `is_recyclable_row` becomes a
candidate. -/
def groupCandidates (toDT : String → Option Nat) (g : List Row) : List Row :=
  if g.length ≤ 1 then []
  else ((sortGroup toDT g).drop 1).filter (fun r => is_recyclable_row r)

/-- `app.py` `choose_duplicate_recycle_candidates` (lines 230-261). -/
def choose_duplicate_recycle_candidates (toDT : String → Option Nat)
    (df_hits : List Row) : List Row :=
  if df_hits.isEmpty then []
  else (groupsOf df_hits).flatMap (fun kg => groupCandidates toDT kg.2)

/-! ## Search submit handler (lines 381-390)

`raw_names = [n for n in input_text.splitlines() if n.strip()]`,
`names = [normalize_name(n, remove_spaces) for n in raw_names if normalize_name(n, remove_spaces)]`,
then truncation to the first 150 entries. -/

/-- The list of names the search loop receives, as a function of the text-area
content and the `remove_spaces` checkbox. -/
def prepare_names (remove_spaces : Bool) (input_text : String) : List String :=
  let raw_names := (pySplitLines input_text).filter (fun n => (pyStrip n) ≠ "")
  let names := (raw_names.filter (fun n => normalize_name n remove_spaces ≠ "")).map
    (fun n => normalize_name n remove_spaces)
  names.take 150

/-! ## Search loop (lines 398-412)

The per-name search (`search_by_display_name`) is a collaborator performing
HTTP I/O; it is passed in as `srch : String → Except String (List Row)`, where
`Except.error e` models a raised exception with message `e`.  The loop produces
the accumulated hit rows (`all_rows`), the missing list, and the list of
per-name failures surfaced through `st.error` (line 407). -/

/-- One run of the `for i, name in enumerate(names, ...)` search loop. -/
def searchLoop (srch : String → Except String (List Row)) :
    List String → List Row × List String × List (String × String)
  | [] => ([], [], [])
  | n :: rest =>
    let acc := searchLoop srch rest
    match srch n with
    | .ok rows =>
      if rows.isEmpty then (acc.1, n :: acc.2.1, acc.2.2)
      else (rows ++ acc.1, acc.2.1, acc.2.2)
    | .error e => (acc.1, n :: acc.2.1, (n, e) :: acc.2.2)

/-! ## Dry-run mapping (lines 537-548) -/

/-- The dry-run assignment plan: candidate ids are deduplicated keeping first
occurrences (line 539), `max_assign = min(assign_limit, len(missing_names),
len(recycle_ids))` (line 542), and the mapping is
`[(missing_names[i], recycle_ids[i]) for i in range(max_assign)]` (line 546),
i.e. the positional zip truncated to `max_assign`. -/
def dryRunMapping (assign_limit : Nat) (missing_names recycle_ids_raw : List String) :
    List (String × String) :=
  let recycle_ids := dedupeKeepOrder recycle_ids_raw
  let max_assign := min assign_limit (min missing_names.length recycle_ids.length)
  (missing_names.zip recycle_ids).take max_assign

/-! ## Update payloads and `put_reassign` (lines 315-351)

`put_update_member` performs the HTTP PUT; it is passed in as
`upd : Payload → Except String String` (the result string being the opaque
parsed response).  A payload records the pieces of the JSON body that the
source varies: the member id, the new display name, the optional
`meta = \x7block_key: str(int(time.time()))\x7d` entry, and whether the display
name is sent nested (`person.displayName`) or as a flat dotted key. -/

structure Payload where
  id : String
  displayName : String
  metaLock : Option (String × String)
  dotKey : Bool
deriving Repr, DecidableEq

/-- `app.py` `build_update_payload` (lines 315-325): nested
`person.displayName`, plus the `meta` lock entry when `write_lock` and a
nonempty `lock_key`; `now` models `int(time.time())`. -/
def build_update_payload (member_id new_display_name lock_key : String)
    (write_lock : Bool) (now : Nat) : Payload :=
  { id := member_id, displayName := new_display_name,
    metaLock := if write_lock && lock_key ≠ "" then some (lock_key, toString now) else none,
    dotKey := false }

/-- Steps 2-3 of `app.py` `put_reassign` (lines 344-351): update the display
name only, first with the nested payload, then — if that raises too — with
the dotted-key payload; the last exception propagates, and a success reports
`lock_written = False`. -/
def put_reassign_fallback (upd : Payload → Except String String)
    (member_id name : String) : Except String (String × Bool) :=
  match upd { id := member_id, displayName := name, metaLock := none, dotKey := false } with
  | .ok r => .ok (r, false)
  | .error _ =>
    match upd { id := member_id, displayName := name, metaLock := none, dotKey := true } with
    | .ok r => .ok (r, false)
    | .error e => .error e

/-- `app.py` `put_reassign` (lines 327-351): strip the new name; if
`write_lock and lock_key`, first try the payload carrying the lock and report
`lock_written = True` on success; on any exception fall back to the lock-free
updates of `put_reassign_fallback`. -/
def put_reassign (upd : Payload → Except String String)
    (member_id new_display_name lock_key : String) (write_lock : Bool) (now : Nat) :
    Except String (String × Bool) :=
  if write_lock && lock_key ≠ "" then
    match upd (build_update_payload member_id (pyStrip new_display_name) lock_key true now) with
    | .ok r => .ok (r, true)
    | .error _ => put_reassign_fallback upd member_id (pyStrip new_display_name)
  else put_reassign_fallback upd member_id (pyStrip new_display_name)

/-! ## Apply loop (lines 566-630)

The `do_apply` branch iterates the mapping, calling `put_reassign` per pair,
appending to `ok_rows` on success and to `fail_rows` on exception.  Nothing in
the branch writes to `st.session_state`: in particular `hits_rows`,
`missing_names` and `recycle_pool_A` (the persistent pool and missing list)
are left exactly as they were, whatever succeeded or failed. -/

structure OkRow where
  memberId : String
  newDisplayName : String
  lockWritten : Bool
  resp : String
deriving Repr, DecidableEq

structure FailRow where
  memberId : String
  newDisplayName : String
  error : String
deriving Repr, DecidableEq

structure ApplyResult where
  okRows : List OkRow
  failRows : List FailRow
  pool : List String
  missing : List String
deriving Repr, DecidableEq

/-- The `for i, row in enumerate(mapping, ...)` loop of the apply branch
(lines 573-603); `str(resp)[:500]` and `str(e)[:1200]` become `String.take`. -/
def applyLoop (upd : Payload → Except String String) (lock_key : String)
    (write_lock : Bool) (now : Nat) :
    List (String × String) → List OkRow × List FailRow
  | [] => ([], [])
  | (new_name, member_id) :: rest =>
    let acc := applyLoop upd lock_key write_lock now rest
    match put_reassign upd member_id new_name lock_key write_lock now with
    | .ok (r, lw) =>
      ({ memberId := member_id, newDisplayName := new_name, lockWritten := lw,
         resp := r.take 500 } :: acc.1, acc.2)
    | .error e =>
      (acc.1, { memberId := member_id, newDisplayName := new_name,
                error := e.take 1200 } :: acc.2)

/-- The whole `do_apply` branch as a state transformer on the session data:
it produces the ok/fail result rows and returns the persistent pool and the
missing list unchanged (no statement of the branch mutates them). -/
def do_apply (upd : Payload → Except String String) (lock_key : String)
    (write_lock : Bool) (now : Nat) (mapping : List (String × String))
    (pool missing : List String) : ApplyResult :=
  let res := applyLoop upd lock_key write_lock now mapping
  { okRows := res.1, failRows := res.2, pool := pool, missing := missing }

/-! ## List-response body handling (lines 84-110, 133-135)

`json.loads` is a library call and is passed in as
`pj : String → Option Json` (`none` models `json.JSONDecodeError`). -/

inductive Json where
  | null : Json
  | bool : Bool → Json
  | num : Int → Json
  | str : String → Json
  | arr : List Json → Json
  | obj : List (String × Json) → Json

/-- Python truthiness of a JSON value (`None`, `False`, `0`, `""`, `[]`, and
`\x7b\x7d` are falsy). -/
def jsonTruthy : Json → Bool
  | .null => false
  | .bool b => b
  | .num n => n ≠ 0
  | .str s => s ≠ ""
  | .arr l => !l.isEmpty
  | .obj l => !l.isEmpty

/-- Python `dict.get`: first binding of the key, `None` when absent. -/
def jGet (kvs : List (String × Json)) (k : String) : Option Json :=
  (kvs.find? (fun kv => kv.1 == k)).map (fun kv => kv.2)

/-- Truthiness of `dict.get`'s result (`None` is falsy). -/
def truthyOpt : Option Json → Bool
  | none => false
  | some j => jsonTruthy j

/-- Body handling of `post_list_members` (lines 98-110): strip the response
text, return `[]` when empty, otherwise parse each non-blank line; on the
first line that fails to parse, replace everything with the single-element
list `[json.loads(text)]` (and propagate the exception if that also fails). -/
def parseLines (pj : String → Option Json) (wholeText : String) :
    List String → List Json → Except String (List Json)
  | [], acc => .ok acc.reverse
  | ln :: rest, acc =>
    match pj ln with
    | some j => parseLines pj wholeText rest (j :: acc)
    | none =>
      match pj wholeText with
      | some j => .ok [j]
      | none => .error "JSONDecodeError"

/-- `app.py` `post_list_members` restricted to its response-body handling:
the list of items handed to `extract_member_rows`, as a function of the
2xx response text. -/
def post_list_members_items (pj : String → Option Json) (respText : String) :
    Except String (List Json) :=
  let text := pyStrip respText
  if text = "" then .ok []
  else parseLines pj text ((pySplitLines text).filter (fun ln => (pyStrip ln) ≠ "")) []

/-- `app.py` `extract_member_obj` (lines 133-135):
`member = item.get("result") or item.get("member") or item;
return member if isinstance(member, dict) else None`.
Calling `.get` on a non-dict item raises `AttributeError`, modelled by
`Except.error`. -/
def extract_member_obj (item : Json) : Except Unit (Option Json) :=
  match item with
  | .obj kvs =>
    let g1 := jGet kvs "result"
    let g2 := jGet kvs "member"
    let member :=
      if truthyOpt g1 then g1.getD .null
      else if truthyOpt g2 then g2.getD .null
      else item
    .ok (match member with | .obj _ => some member | _ => none)
  | _ => .error ()

/-! ## Concrete instances used by witnesses and counterexamples

`toDTex` is `pd.to_datetime(..., errors="coerce")` restricted to the timestamp
strings occurring in the examples (both parse, June after January); `toDTnone`
is the same library call on strings that do not parse at all. -/

def toDTex : String → Option Nat := fun s =>
  if s = "2024-01-01" then some 1 else if s = "2024-06-01" then some 2 else none

def toDTnone : String → Option Nat := fun _ => none

def rowA1 : Row :=
  { searchName := "ALICE SMITH", displayName := "ALICE SMITH", memberId := "A1",
    passStatus := "PASS_ISSUED", cardNumber := some "", lockVal := some "",
    created := "", updated := "2024-01-01" }

def rowA2 : Row :=
  { searchName := "ALICE SMITH", displayName := "ALICE SMITH", memberId := "A2",
    passStatus := "PASS_ISSUED", cardNumber := some "", lockVal := some "",
    created := "", updated := "2024-06-01" }

/-- Two hits of a `like`-mode search for `"AL"`: the records carry their own
display names, different from the search key. -/
def rowAlice : Row :=
  { searchName := "AL", displayName := "ALICE", memberId := "A1",
    passStatus := "PASS_ISSUED", cardNumber := some "", lockVal := some "",
    created := "", updated := "" }

def rowAlan : Row :=
  { searchName := "AL", displayName := "ALAN", memberId := "A2",
    passStatus := "PASS_ISSUED", cardNumber := some "", lockVal := some "",
    created := "", updated := "" }

/-- Two rows of one duplicate group whose timestamps tie exactly; the server
returned id `"B"` before id `"A"`. -/
def rowTieB : Row :=
  { searchName := "N", displayName := "N", memberId := "B",
    passStatus := "PASS_ISSUED", cardNumber := some "", lockVal := some "",
    created := "", updated := "2024-01-01" }

def rowTieA : Row :=
  { searchName := "N", displayName := "N", memberId := "A",
    passStatus := "PASS_ISSUED", cardNumber := some "", lockVal := some "",
    created := "", updated := "2024-01-01" }

/-- An update collaborator that rejects any payload carrying a `meta` lock
entry (the backend disallowing unknown meta keys, the very case the
`put_reassign` fallback exists for) and accepts lock-free payloads. -/
def updNoMeta : Payload → Except String String := fun p =>
  if p.metaLock.isSome then .error "unknown meta key" else .ok "ok"

/-- An update collaborator for which only member id `"i1"` succeeds. -/
def updOnlyI1 : Payload → Except String String := fun p =>
  if p.id = "i1" then .ok "ok" else .error "boom"

/-- `json.loads` restricted to the strings of the C9 examples: the body
`"[1, 2]"` is a JSON array with two elements, and `"1"`, `"2"` are JSON
numbers (NDJSON lines). -/
def pjEx : String → Option Json := fun s =>
  if s = "[1, 2]" then some (.arr [.num 1, .num 2])
  else if s = "1" then some (.num 1)
  else if s = "2" then some (.num 2)
  else none

/-- A search collaborator raising for `"BOB"` and returning zero hits
otherwise. -/
def srchEx : String → Except String (List Row) := fun n =>
  if n = "BOB" then .error "boom" else .ok []

/-! ## Claim-side definitions (from the specification text, for comparison)

These two definitions follow the words of the spec, not the code; they exist
only to be compared against the embedded code. -/

/-- Modelled from the spec: grouping keyed by the **search key** with groups in
first-seen order ("Partition hits by group key, preserving first-seen order of
groups and of records within a group", group key "the name that was used to
search"). -/
def specGroupsBySearchKey (hits : List Row) : List (String × List Row) :=
  (dedupeKeepOrder (hits.map (fun r => r.searchName))).map
    (fun k => (k, hits.filter (fun r => r.searchName == k)))

/-- Modelled from the spec: comparison for the claimed per-group sort, primary
key `updated` descending (unparseable last), ties broken by record id
ascending. -/
def specRowLEUpd (toDT : String → Option Nat) (r s : Row) : Bool :=
  if toDT r.updated = toDT s.updated then strLE r.memberId s.memberId
  else dtLE (toDT r.updated) (toDT s.updated)

/-- Modelled from the spec: comparison sorting by `created` descending with
ties broken by record id ascending. -/
def specRowLECre (toDT : String → Option Nat) (r s : Row) : Bool :=
  if toDT r.created = toDT s.created then strLE r.memberId s.memberId
  else dtLE (toDT r.created) (toDT s.created)

/-- Modelled from the spec: "sort descending by `updated` if any record in the
group has a parseable `updated` value, else by `created`, else leave in
server-returned order. Ties broken by record id ascending". -/
def specSortGroup (toDT : String → Option Nat) (g : List Row) : List Row :=
  if g.any (fun r => (toDT r.updated).isSome) then stableSort (specRowLEUpd toDT) g
  else if g.any (fun r => (toDT r.created).isSome) then stableSort (specRowLECre toDT) g
  else g

/-- Claim-side per-line keeper for the C8 statement: a non-blank line whose
normalization is nonempty contributes its normalization, in place. -/
def keepLine (rs : Bool) (n : String) : Option String :=
  if (pyStrip n ≠ "" : Bool) then
    (if (normalize_name n rs ≠ "" : Bool) then some (normalize_name n rs) else none)
  else none

/-! # Helper lemmas -/

theorem perm_insertLE {α : Type} (le : α → α → Bool) (x : α) :
    ∀ l : List α, List.Perm (insertLE le x l) (x :: l) := by
  intro l
  induction l with
  | nil => simp [insertLE]
  | cons y ys ih =>
    by_cases h : le x y = true
    · simp [insertLE, h]
    · simp only [insertLE, h, if_false]
      exact (List.Perm.cons y ih).trans (List.Perm.swap x y ys)

theorem perm_stableSort {α : Type} (le : α → α → Bool) :
    ∀ l : List α, List.Perm (stableSort le l) l := by
  intro l
  induction l with
  | nil => simp [stableSort]
  | cons x xs ih =>
    exact (perm_insertLE le x (stableSort le xs)).trans (List.Perm.cons x ih)

theorem mem_insertLE {α : Type} (le : α → α → Bool) (x a : α) (l : List α) :
    a ∈ insertLE le x l ↔ a = x ∨ a ∈ l := by
  rw [(perm_insertLE le x l).mem_iff]
  simp

theorem pairwise_of_mem {α : Type} (R : α → α → Prop) :
    ∀ l : List α, (∀ a ∈ l, ∀ b ∈ l, R a b) → l.Pairwise R := by
  intro l
  induction l with
  | nil => intro _; exact List.Pairwise.nil
  | cons x xs ih =>
    intro h
    refine List.Pairwise.cons ?_ (ih ?_)
    · intro b hb; exact h x (by simp) b (by simp [hb])
    · intro a ha b hb; exact h a (by simp [ha]) b (by simp [hb])

theorem pairwise_insertLE {α : Type} (le : α → α → Bool)
    (htrans : ∀ a b c, le a b = true → le b c = true → le a c = true)
    (htot : ∀ a b, le a b = true ∨ le b a = true) (x : α) :
    ∀ l : List α, l.Pairwise (fun a b => le a b = true) →
      (insertLE le x l).Pairwise (fun a b => le a b = true) := by
  intro l
  induction l with
  | nil => intro _; simp [insertLE]
  | cons y ys ih =>
    intro h
    rcases List.pairwise_cons.mp h with ⟨hy, hys⟩
    by_cases hxy : le x y = true
    · simp only [insertLE, hxy, if_true]
      refine List.pairwise_cons.mpr ⟨?_, h⟩
      intro b hb
      rcases List.mem_cons.mp hb with rfl | hb
      · exact hxy
      · exact htrans x y b hxy (hy b hb)
    · simp only [insertLE, hxy, if_false]
      refine List.pairwise_cons.mpr ⟨?_, ih hys⟩
      intro b hb
      rcases (mem_insertLE le x b ys).mp hb with hbx | hb
      · subst hbx
        rcases htot b y with h1 | h1
        · exact absurd h1 hxy
        · exact h1
      · exact hy b hb

theorem pairwise_stableSort {α : Type} (le : α → α → Bool)
    (htrans : ∀ a b c, le a b = true → le b c = true → le a c = true)
    (htot : ∀ a b, le a b = true ∨ le b a = true) :
    ∀ l : List α, (stableSort le l).Pairwise (fun a b => le a b = true) := by
  intro l
  induction l with
  | nil => simp [stableSort]
  | cons x xs ih => exact pairwise_insertLE le htrans htot x _ ih

theorem mem_dedupeKeepOrder (a : String) :
    ∀ xs : List String, a ∈ dedupeKeepOrder xs ↔ a ∈ xs := by
  intro xs
  induction xs with
  | nil => simp [dedupeKeepOrder]
  | cons x rest ih =>
    simp only [dedupeKeepOrder, List.mem_cons, List.mem_filter]
    constructor
    · rintro (rfl | ⟨h, _⟩)
      · exact Or.inl rfl
      · exact Or.inr (ih.mp h)
    · rintro (rfl | h)
      · exact Or.inl rfl
      · by_cases hax : a = x
        · exact Or.inl hax
        · exact Or.inr ⟨ih.mpr h, by simp [hax]⟩

theorem nodup_dedupeKeepOrder : ∀ xs : List String, (dedupeKeepOrder xs).Nodup := by
  intro xs
  induction xs with
  | nil => simp [dedupeKeepOrder]
  | cons x rest ih =>
    simp only [dedupeKeepOrder, List.nodup_cons]
    constructor
    · intro hmem
      have h2 := (List.mem_filter.mp hmem).2
      simp at h2
    · exact ih.filter _

theorem dtLE_total : ∀ x y : Option Nat, dtLE x y = true ∨ dtLE y x = true := by
  intro x y
  cases x <;> cases y <;> simp [dtLE]
  exact Nat.le_total _ _

theorem dtLE_trans : ∀ x y z : Option Nat,
    dtLE x y = true → dtLE y z = true → dtLE x z = true := by
  intro x y z hxy hyz
  cases x <;> cases y <;> cases z <;> simp_all [dtLE]
  omega

theorem dtLE_antisymm : ∀ x y : Option Nat,
    dtLE x y = true → dtLE y x = true → x = y := by
  intro x y hxy hyx
  cases x <;> cases y <;> simp_all [dtLE]
  omega

theorem rowLE_total (toDT : String → Option Nat) :
    ∀ r s : Row, rowLE toDT r s = true ∨ rowLE toDT s r = true := by
  intro r s
  simp only [rowLE]
  by_cases h : toDT r.updated = toDT s.updated
  · rw [if_pos h, if_pos h.symm]
    exact dtLE_total _ _
  · rw [if_neg h, if_neg (fun e => h e.symm)]
    exact dtLE_total _ _

theorem rowLE_trans (toDT : String → Option Nat) :
    ∀ r s t : Row, rowLE toDT r s = true → rowLE toDT s t = true →
      rowLE toDT r t = true := by
  intro r s t hrs hst
  simp only [rowLE] at hrs hst ⊢
  by_cases h1 : toDT r.updated = toDT s.updated
  · rw [if_pos h1] at hrs
    by_cases h2 : toDT s.updated = toDT t.updated
    · rw [if_pos h2] at hst
      rw [if_pos (h1.trans h2)]
      exact dtLE_trans _ _ _ hrs hst
    · rw [if_neg h2] at hst
      rw [if_neg (fun e => h2 (h1.symm.trans e))]
      rw [h1]; exact hst
  · rw [if_neg h1] at hrs
    by_cases h2 : toDT s.updated = toDT t.updated
    · rw [if_pos h2] at hst
      rw [if_neg (fun e => h1 (e.trans h2.symm))]
      rw [← h2]; exact hrs
    · rw [if_neg h2] at hst
      by_cases h3 : toDT r.updated = toDT t.updated
      · rw [← h3] at hst
        exact absurd (dtLE_antisymm _ _ hrs hst) h1
      · rw [if_neg h3]
        exact dtLE_trans _ _ _ hrs hst

theorem charToNat_inj : ∀ a b : Char, a.toNat = b.toNat → a = b := by
  intro a b h
  have := congrArg Char.ofNat h
  simpa [Char.ofNat_toNat] using this

theorem strLEChars_total : ∀ as bs : List Char,
    strLEChars as bs = true ∨ strLEChars bs as = true := by
  intro as
  induction as with
  | nil => intro bs; left; simp [strLEChars]
  | cons a as ih =>
    intro bs
    cases bs with
    | nil => right; simp [strLEChars]
    | cons b bs =>
      by_cases hab : a = b
      · subst hab
        simp only [strLEChars, if_true]
        exact ih bs
      · have hba : ¬ (b = a) := fun e => hab e.symm
        simp only [strLEChars, hab, hba, if_false]
        rcases Nat.le_total a.toNat b.toNat with h | h
        · left; simpa using h
        · right; simpa using h

theorem strLEChars_trans : ∀ as bs cs : List Char,
    strLEChars as bs = true → strLEChars bs cs = true → strLEChars as cs = true := by
  intro as
  induction as with
  | nil => intro bs cs _ _; simp [strLEChars]
  | cons a as ih =>
    intro bs cs h1 h2
    cases bs with
    | nil => simp [strLEChars] at h1
    | cons b bs =>
      cases cs with
      | nil => simp [strLEChars] at h2
      | cons c cs =>
        by_cases hab : a = b
        · subst hab
          by_cases hbc : a = c
          · subst hbc
            simp only [strLEChars, if_true] at *
            exact ih bs cs h1 h2
          · simp only [strLEChars, hbc, if_true, if_false] at *
            exact h2
        · by_cases hbc : b = c
          · subst hbc
            simp only [strLEChars, hab, if_true, if_false] at *
            exact h1
          · simp only [strLEChars, hab, hbc, if_false] at h1 h2
            have hle1 : a.toNat ≤ b.toNat := by simpa using h1
            have hle2 : b.toNat ≤ c.toNat := by simpa using h2
            have hac : ¬ (a = c) := by
              intro e; subst e
              exact hab (charToNat_inj a b (Nat.le_antisymm hle1 hle2))
            simp only [strLEChars, hac, if_false]
            simpa using Nat.le_trans hle1 hle2

theorem strLE_total : ∀ a b : String, strLE a b = true ∨ strLE b a = true := by
  intro a b; exact strLEChars_total a.data b.data

theorem strLE_trans : ∀ a b c : String,
    strLE a b = true → strLE b c = true → strLE a c = true := by
  intro a b c; exact strLEChars_trans a.data b.data c.data

/-- Partitioning a list by a duplicate-free covering family of key values and
concatenating the parts permutes the list. -/
theorem flatMap_filter_perm (key : Row → String) :
    ∀ (keys : List String) (hits : List Row), keys.Nodup →
      (∀ r ∈ hits, key r ∈ keys) →
      List.Perm (keys.flatMap (fun k => hits.filter (fun r => key r == k))) hits := by
  intro keys
  induction keys with
  | nil =>
    intro hits _ hcov
    have : hits = [] := List.eq_nil_iff_forall_not_mem.mpr (fun r hr => by
      simpa using hcov r hr)
    simp [this]
  | cons k ks ih =>
    intro hits hnd hcov
    rcases List.nodup_cons.mp hnd with ⟨hk, hksnd⟩
    have hstep : ∀ k' ∈ ks,
        hits.filter (fun r => key r == k') =
          (hits.filter (fun r => !(key r == k))).filter (fun r => key r == k') := by
      intro k' hk'
      rw [List.filter_filter]
      apply List.filter_congr
      intro r _
      by_cases h : key r = k'
      · have hne : ¬ (key r = k) := fun e => hk ((h.symm.trans e) ▸ hk')
        have hkk : ¬ (k' = k) := fun e => hne (h.trans e)
        simp [h, hne, hkk]
      · simp [h]
    have hmapeq :
        ks.flatMap (fun k' => hits.filter (fun r => key r == k')) =
          ks.flatMap (fun k' =>
            (hits.filter (fun r => !(key r == k))).filter (fun r => key r == k')) :=
      List.flatMap_congr hstep
    have hcov' : ∀ r ∈ hits.filter (fun r => !(key r == k)), key r ∈ ks := by
      intro r hr
      rcases List.mem_filter.mp hr with ⟨hrhits, hrk⟩
      rcases List.mem_cons.mp (hcov r hrhits) with h | h
      · exact absurd h (by simpa using hrk)
      · exact h
    simp only [List.flatMap_cons]
    rw [hmapeq]
    exact (List.Perm.append_left _ (ih _ hksnd hcov')).trans
      (List.filter_append_perm _ hits)

/-- The first `n` positional pairs of two lists project back onto the first
`n` elements of each list. -/
theorem zip_take_spec {α β : Type} :
    ∀ (n : Nat) (a : List α) (b : List β), n ≤ a.length → n ≤ b.length →
      ((a.zip b).take n).map Prod.fst = a.take n ∧
      ((a.zip b).take n).map Prod.snd = b.take n ∧
      ((a.zip b).take n).length = n := by
  intro n
  induction n with
  | zero => intro a b _ _; simp
  | succ m ih =>
    intro a b ha hb
    cases a with
    | nil => simp at ha
    | cons x as =>
      cases b with
      | nil => simp at hb
      | cons y bs =>
        have ha' : m ≤ as.length := by simpa using ha
        have hb' : m ≤ bs.length := by simpa using hb
        rcases ih as bs ha' hb' with ⟨h1, h2, h3⟩
        simp [List.zip_cons_cons, h1, h2, h3]

/-- The ok rows of the apply loop are exactly the successful pairs of the
mapping, in plan order, and the fail rows the failed pairs. -/
theorem applyLoop_spec (upd : Payload → Except String String) (lock_key : String)
    (write_lock : Bool) (now : Nat) :
    ∀ mapping : List (String × String),
      (applyLoop upd lock_key write_lock now mapping).1 =
        mapping.filterMap (fun pr =>
          match put_reassign upd pr.2 pr.1 lock_key write_lock now with
          | .ok (r, lw) => some { memberId := pr.2, newDisplayName := pr.1,
                                  lockWritten := lw, resp := r.take 500 }
          | .error _ => none) ∧
      (applyLoop upd lock_key write_lock now mapping).2 =
        mapping.filterMap (fun pr =>
          match put_reassign upd pr.2 pr.1 lock_key write_lock now with
          | .ok _ => none
          | .error e => some { memberId := pr.2, newDisplayName := pr.1,
                               error := e.take 1200 }) := by
  intro mapping
  induction mapping with
  | nil => simp [applyLoop]
  | cons pr rest ih =>
    rcases pr with ⟨new_name, member_id⟩
    rcases ih with ⟨ih1, ih2⟩
    simp only [applyLoop, List.filterMap_cons]
    cases hput : put_reassign upd member_id new_name lock_key write_lock now with
    | ok rlw =>
      rcases rlw with ⟨r, lw⟩
      simp [hput, ih1, ih2]
    | error e =>
      simp [hput, ih1, ih2]

/-- The search loop fully classifies the input names: hits are the
concatenated successful nonempty results, the missing list consists of the
names whose search errored or returned zero hits, and the surfaced error list
consists of exactly the errored names with their messages, all in input
order. -/
theorem searchLoop_spec (srch : String → Except String (List Row)) :
    ∀ names : List String,
      (searchLoop srch names).1 =
        names.flatMap (fun n => match srch n with | .ok r => r | .error _ => []) ∧
      (searchLoop srch names).2.1 =
        names.filter (fun n => match srch n with | .ok r => r.isEmpty | .error _ => true) ∧
      (searchLoop srch names).2.2 =
        names.filterMap (fun n => match srch n with
          | .ok _ => none
          | .error e => some (n, e)) := by
  intro names
  induction names with
  | nil => simp [searchLoop]
  | cons n rest ih =>
    rcases ih with ⟨ih1, ih2, ih3⟩
    simp only [searchLoop, List.flatMap_cons, List.filter_cons, List.filterMap_cons]
    cases hs : srch n with
    | ok rows =>
      cases hrows : rows.isEmpty
      · simp_all [hrows]
      · simp_all [hrows, List.isEmpty_iff.mp hrows]
    | error e =>
      simp_all

/-- When every line parses, the body loop returns one item per line. -/
theorem parseLines_all_ok (pj : String → Option Json) (wholeText : String) :
    ∀ (lines : List String) (acc : List Json),
      (∀ ln ∈ lines, (pj ln).isSome = true) →
      parseLines pj wholeText lines acc = .ok (acc.reverse ++ lines.filterMap pj) := by
  intro lines
  induction lines with
  | nil => intro acc _; simp [parseLines]
  | cons ln rest ih =>
    intro acc hall
    have hln : (pj ln).isSome = true := hall ln (by simp)
    rcases Option.isSome_iff_exists.mp hln with ⟨j, hj⟩
    have hrest : ∀ l ∈ rest, (pj l).isSome = true := fun l hl => hall l (by simp [hl])
    simp [parseLines, hj, ih (j :: acc) hrest]

/-- A guarded comprehension (filter then map) is a single `filterMap`. -/
theorem map_filter_eq_filterMap {α β : Type} (p : α → Bool) (f : α → β) :
    ∀ l : List α,
      ((l.filter p).map f) = l.filterMap (fun a => if p a then some (f a) else none) := by
  intro l
  induction l with
  | nil => simp
  | cons a l ih =>
    simp only [List.filter_cons, List.filterMap_cons]
    cases hp : p a
    · simp [ih]
    · simp [ih]

/-- A `filterMap` over a filtered list is a single guarded `filterMap`. -/
theorem filterMap_filter {α β : Type} (p : α → Bool) (g : α → Option β) :
    ∀ l : List α,
      ((l.filter p).filterMap g) = l.filterMap (fun a => if p a then g a else none) := by
  intro l
  induction l with
  | nil => simp
  | cons a l ih =>
    cases hp : p a
    · rw [List.filter_cons_of_neg (by simp [hp]), List.filterMap_cons, ih]
      simp [hp]
    · rw [List.filter_cons_of_pos (by simp [hp]), List.filterMap_cons,
        List.filterMap_cons, ih]
      simp [hp]

/-- The lock-free fallback of `put_reassign` never reports the lock marker as
written. -/
theorem fallback_flag_false (upd : Payload → Except String String)
    (member_id name : String) (r : String) :
    put_reassign_fallback upd member_id name ≠ .ok (r, true) := by
  unfold put_reassign_fallback
  cases h1 : upd ⟨member_id, name, none, false⟩ with
  | ok r1 => simp
  | error e1 =>
    cases h2 : upd ⟨member_id, name, none, true⟩ with
    | ok r2 => simp
    | error e2 => simp

/-! # Claim theorems -/

/-- C1: for every hit row, `is_recyclable_row` returns true iff the row's
status equals `"PASS_ISSUED"` and its card number is empty/absent and its lock
marker is empty/absent (emptiness in the sense of the code's blank test, which
also treats whitespace-only and the `"NULL"` sentinel as empty); consequently,
for every group and every status value, a record whose card number is not
blank never appears among the recycle candidates chosen by
`choose_duplicate_recycle_candidates`. -/
theorem C1_recyclable_iff_and_candidates_blank :
    (∀ row : Row, is_recyclable_row row = true ↔
      (row.passStatus = "PASS_ISSUED" ∧ blankOpt row.cardNumber = true ∧
        (row.lockVal = none ∨ blankOpt row.lockVal = true)))
    ∧ (∀ (toDT : String → Option Nat) (hits : List Row) (r : Row),
        r ∈ choose_duplicate_recycle_candidates toDT hits →
        is_recyclable_row r = true ∧ blankOpt r.cardNumber = true) := by
  constructor
  · intro row
    simp only [is_recyclable_row, Bool.and_eq_true, Bool.or_eq_true, beq_iff_eq,
      Option.isNone_iff_eq_none]
    tauto
  · intro toDT hits r hr
    have hrec : is_recyclable_row r = true := by
      unfold choose_duplicate_recycle_candidates at hr
      by_cases he : hits.isEmpty = true
      · simp [he] at hr
      · rw [if_neg he] at hr
        rcases List.mem_flatMap.mp hr with ⟨kg, _, hmem⟩
        unfold groupCandidates at hmem
        by_cases hlen : kg.2.length ≤ 1
        · simp [hlen] at hmem
        · rw [if_neg hlen] at hmem
          exact (List.mem_filter.mp hmem).2
    refine ⟨hrec, ?_⟩
    have h := hrec
    simp only [is_recyclable_row, Bool.and_eq_true] at h
    exact h.1.2

/-- Witness for C1: in the spec's example duplicate group the older record
`rowA1` is chosen as a candidate, and indeed it is recyclable with a blank
card number. -/
theorem C1_witness :
    is_recyclable_row rowA1 = true ∧ blankOpt rowA1.cardNumber = true :=
  C1_recyclable_iff_and_candidates_blank.2 toDTex [rowA1, rowA2] rowA1 (by decide)

/-- C6: for every group with more than one (pairwise distinct) record, exactly
one keeper — the first record after the sort — is selected: the candidate list
is drawn from, and only from, the remaining records, and the keeper itself is
never among the recycle candidates of its group. -/
theorem C6_keeper_never_recycled :
    ∀ (toDT : String → Option Nat) (g : List Row) (keeper : Row),
      g.Nodup → 1 < g.length → (sortGroup toDT g).head? = some keeper →
      (∃ rest, sortGroup toDT g = keeper :: rest ∧
        groupCandidates toDT g = rest.filter (fun r => is_recyclable_row r)) ∧
      keeper ∉ groupCandidates toDT g := by
  intro toDT g keeper hnd hlen hhead
  have hperm : List.Perm (sortGroup toDT g) g := by
    unfold sortGroup
    by_cases h : ((g.any fun r => (toDT r.updated).isSome) ||
        (g.any fun r => (toDT r.created).isSome)) = true
    · rw [if_pos h]; exact perm_stableSort _ g
    · rw [if_neg h]
  obtain ⟨rest, hcons⟩ : ∃ rest, sortGroup toDT g = keeper :: rest := by
    cases hsg : sortGroup toDT g with
    | nil => rw [hsg] at hhead; simp at hhead
    | cons a l =>
      rw [hsg] at hhead
      simp only [List.head?_cons, Option.some.injEq] at hhead
      exact ⟨l, by rw [hhead]⟩
  have hnds : (sortGroup toDT g).Nodup := (hperm.nodup_iff).mpr hnd
  have hcand : groupCandidates toDT g = rest.filter (fun r => is_recyclable_row r) := by
    unfold groupCandidates
    rw [if_neg (by omega : ¬ g.length ≤ 1), hcons]
    rfl
  refine ⟨⟨rest, hcons, hcand⟩, ?_⟩
  rw [hcand]
  intro hmem
  have hk : keeper ∈ rest := (List.mem_filter.mp hmem).1
  rw [hcons] at hnds
  exact (List.nodup_cons.mp hnds).1 hk

/-- Witness for C6: in the example group the newer record `rowA2` is the
keeper and is not among the candidates. -/
theorem C6_witness : rowA2 ∉ groupCandidates toDTex [rowA1, rowA2] :=
  (C6_keeper_never_recycled toDTex [rowA1, rowA2] rowA2 (by decide) (by decide)
    (by decide)).2

/-- C10: the search loop classifies every input name — hit rows accumulate
from the successful nonempty results, the missing list consists exactly of
the names whose search raised or returned zero hits, and the surfaced error
list consists exactly of the raising names with their messages (so a raising
name is routed to missing AND surfaced, distinct from a genuine zero-hit name,
which is routed to missing but produces no error entry), and the loop never
aborts: every name of the batch is processed. -/
theorem C10_search_failures_routed_and_surfaced :
    ∀ (srch : String → Except String (List Row)) (names : List String),
      (searchLoop srch names).2.1 =
        names.filter (fun n => match srch n with | .ok r => r.isEmpty | .error _ => true)
      ∧ (searchLoop srch names).2.2 =
          names.filterMap (fun n => match srch n with
            | .ok _ => none
            | .error e => some (n, e))
      ∧ (searchLoop srch names).1 =
          names.flatMap (fun n => match srch n with | .ok r => r | .error _ => [])
      ∧ (∀ n e, n ∈ names → srch n = .error e →
          n ∈ (searchLoop srch names).2.1 ∧ (n, e) ∈ (searchLoop srch names).2.2)
      ∧ (∀ n, srch n = .ok [] → ∀ e, (n, e) ∉ (searchLoop srch names).2.2) := by
  intro srch names
  rcases searchLoop_spec srch names with ⟨h1, h2, h3⟩
  refine ⟨h2, h3, h1, ?_, ?_⟩
  · intro n e hn he
    constructor
    · rw [h2]
      exact List.mem_filter.mpr ⟨hn, by simp [he]⟩
    · rw [h3]
      exact List.mem_filterMap.mpr ⟨n, hn, by simp [he]⟩
  · intro n hok e hmem
    rw [h3] at hmem
    rcases List.mem_filterMap.mp hmem with ⟨m, _, hme⟩
    cases hsm : srch m with
    | ok r => rw [hsm] at hme; simp at hme
    | error em =>
      rw [hsm] at hme
      simp only [Option.some.injEq, Prod.mk.injEq] at hme
      rcases hme with ⟨rfl, rfl⟩
      rw [hok] at hsm
      simp at hsm

/-- Witness for C10: the name `"BOB"`, whose search raises, lands in the
missing list and in the surfaced error list. -/
theorem C10_witness :
    "BOB" ∈ (searchLoop srchEx ["AL", "BOB"]).2.1 ∧
      ("BOB", "boom") ∈ (searchLoop srchEx ["AL", "BOB"]).2.2 :=
  (C10_search_failures_routed_and_surfaced srchEx ["AL", "BOB"]).2.2.2.1 "BOB" "boom"
    (by decide) rfl

/-- Counterexample for C2: an execution of three pairs of which the last two
fail.  The claim demands that afterwards the persistent pool retain exactly
the failed ids `["i2", "i3"]` and the missing list exactly `["n2", "n3"]`;
the code leaves both untouched, so the pool still holds the successfully
updated id `"i1"` and the missing list still holds `"n1"`. -/
theorem C2_counterexample :
    ((do_apply updOnlyI1 "recycleLock" true 0
        [("n1", "i1"), ("n2", "i2"), ("n3", "i3")]
        ["i1", "i2", "i3"] ["n1", "n2", "n3"]).okRows).map OkRow.memberId = ["i1"] ∧
    ((do_apply updOnlyI1 "recycleLock" true 0
        [("n1", "i1"), ("n2", "i2"), ("n3", "i3")]
        ["i1", "i2", "i3"] ["n1", "n2", "n3"]).failRows).map FailRow.memberId
      = ["i2", "i3"] ∧
    (do_apply updOnlyI1 "recycleLock" true 0
        [("n1", "i1"), ("n2", "i2"), ("n3", "i3")]
        ["i1", "i2", "i3"] ["n1", "n2", "n3"]).pool = ["i1", "i2", "i3"] ∧
    (do_apply updOnlyI1 "recycleLock" true 0
        [("n1", "i1"), ("n2", "i2"), ("n3", "i3")]
        ["i1", "i2", "i3"] ["n1", "n2", "n3"]).pool ≠ ["i2", "i3"] ∧
    (do_apply updOnlyI1 "recycleLock" true 0
        [("n1", "i1"), ("n2", "i2"), ("n3", "i3")]
        ["i1", "i2", "i3"] ["n1", "n2", "n3"]).missing = ["n1", "n2", "n3"] ∧
    (do_apply updOnlyI1 "recycleLock" true 0
        [("n1", "i1"), ("n2", "i2"), ("n3", "i3")]
        ["i1", "i2", "i3"] ["n1", "n2", "n3"]).missing ≠ ["n2", "n3"] := by
  refine ⟨?_, ?_, rfl, ?_, rfl, ?_⟩ <;> decide

/-- C2 (amended): the apply execution never mutates the persistent pool or
the missing list — successfully updated ids are NOT removed — and the only
record of the outcome is the pair of result lists: the ok rows are exactly
the successful pairs of the plan and the fail rows exactly the failed pairs,
each in original plan order. -/
theorem C2_amended_pool_untouched :
    ∀ (upd : Payload → Except String String) (lock_key : String) (write_lock : Bool)
      (now : Nat) (mapping : List (String × String)) (pool missing : List String),
      (do_apply upd lock_key write_lock now mapping pool missing).pool = pool
      ∧ (do_apply upd lock_key write_lock now mapping pool missing).missing = missing
      ∧ (do_apply upd lock_key write_lock now mapping pool missing).okRows =
          mapping.filterMap (fun pr =>
            match put_reassign upd pr.2 pr.1 lock_key write_lock now with
            | .ok (r, lw) => some { memberId := pr.2, newDisplayName := pr.1,
                                    lockWritten := lw, resp := r.take 500 }
            | .error _ => none)
      ∧ (do_apply upd lock_key write_lock now mapping pool missing).failRows =
          mapping.filterMap (fun pr =>
            match put_reassign upd pr.2 pr.1 lock_key write_lock now with
            | .ok _ => none
            | .error e => some { memberId := pr.2, newDisplayName := pr.1,
                                 error := e.take 1200 }) := by
  intro upd lock_key write_lock now mapping pool missing
  rcases applyLoop_spec upd lock_key write_lock now mapping with ⟨h1, h2⟩
  exact ⟨rfl, rfl, h1, h2⟩

/-- Counterexample for C3: with lock-writing requested (`write_lock = True`,
nonempty lock key), against a backend that rejects payloads carrying the
`meta` lock entry, `put_reassign` still completes successfully — via its
lock-free fallback — and reports `lock_written = False`: a successfully
reassigned record without the lock marker, re-recyclable by a later run. -/
theorem C3_counterexample :
    put_reassign updNoMeta "M1" "NEWNAME" "recycleLock" true 0 = .ok ("ok", false) ∧
    updNoMeta (build_update_payload "M1" "NEWNAME" "recycleLock" true 0) =
      .error "unknown meta key" :=
  ⟨rfl, rfl⟩

/-- C3 (amended): a successful reassignment reports the lock marker as
written precisely when lock-writing is enabled, the lock key is nonempty, and
the update call carrying the lock payload itself succeeds; in every other
successful case the executor fell back to a lock-free update and reported
`lock_written = False`. -/
theorem C3_amended_lock_written_iff :
    ∀ (upd : Payload → Except String String) (member_id new_name lock_key : String)
      (write_lock : Bool) (now : Nat) (r : String),
      put_reassign upd member_id new_name lock_key write_lock now = .ok (r, true) ↔
        (write_lock = true ∧ lock_key ≠ "" ∧
          upd (build_update_payload member_id (pyStrip new_name) lock_key true now) =
            .ok r) := by
  intro upd member_id new_name lock_key write_lock now r
  unfold put_reassign
  by_cases hw : (write_lock && lock_key ≠ "") = true
  · rw [if_pos hw]
    obtain ⟨hwl, hk⟩ : write_lock = true ∧ lock_key ≠ "" := by simpa using hw
    cases hu : upd (build_update_payload member_id (pyStrip new_name) lock_key true now) with
    | ok r' =>
      simp only [Except.ok.injEq, Prod.mk.injEq, and_true]
      constructor
      · intro h; exact ⟨hwl, hk, by rw [h]⟩
      · rintro ⟨_, _, h⟩
        simpa using h
    | error e =>
      constructor
      · intro h; exact absurd h (fallback_flag_false upd member_id (pyStrip new_name) r)
      · rintro ⟨_, _, h⟩
        simp at h
  · rw [if_neg hw]
    constructor
    · intro h; exact absurd h (fallback_flag_false upd member_id (pyStrip new_name) r)
    · rintro ⟨hwl, hk, _⟩
      exact absurd (by simp [hwl, hk] : (write_lock && lock_key ≠ "") = true) hw

/-- Counterexample for C4: two hits of one `like`-mode search for `"AL"`,
returning records named `"ALICE"` and `"ALAN"`.  The claim requires one group
keyed by the search key `"AL"` in first-seen order; the code groups by each
record's own `displayName`, producing two groups, iterated in sorted key
order. -/
theorem C4_counterexample :
    groupsOf [rowAlice, rowAlan] = [("ALAN", [rowAlan]), ("ALICE", [rowAlice])] ∧
    specGroupsBySearchKey [rowAlice, rowAlan] = [("AL", [rowAlice, rowAlan])] ∧
    groupsOf [rowAlice, rowAlan] ≠ specGroupsBySearchKey [rowAlice, rowAlan] := by
  refine ⟨?_, ?_, ?_⟩ <;> decide

/-- C4 (amended): grouping is exhaustive — concatenating the groups permutes
the hit list, so every hit row lies in exactly one group — but the group key
is the record's own `displayName` (each group is precisely the hit rows
bearing that name, in their original relative order), and the groups are
iterated in ascending sorted key order with no key repeated, not in first-seen
order of the search keys. -/
theorem C4_amended_grouped_by_displayName :
    ∀ hits : List Row,
      List.Perm ((groupsOf hits).flatMap (fun kg => kg.2)) hits
      ∧ (∀ kg ∈ groupsOf hits, kg.2 = hits.filter (fun r => r.displayName == kg.1))
      ∧ ((groupsOf hits).map Prod.fst).Nodup
      ∧ ((groupsOf hits).map Prod.fst).Pairwise (fun a b => strLE a b = true) := by
  intro hits
  have hkeysnd : (groupKeys hits).Nodup := by
    unfold groupKeys
    exact ((perm_stableSort strLE _).nodup_iff).mpr (nodup_dedupeKeepOrder _)
  have hcov : ∀ r ∈ hits, r.displayName ∈ groupKeys hits := by
    intro r hr
    unfold groupKeys
    rw [(perm_stableSort strLE _).mem_iff, mem_dedupeKeepOrder]
    exact List.mem_map.mpr ⟨r, hr, rfl⟩
  have hfst : (groupsOf hits).map Prod.fst = groupKeys hits := by
    unfold groupsOf
    rw [List.map_map]
    have hid : (Prod.fst ∘ fun k =>
        (k, hits.filter (fun r => r.displayName == k))) = id := rfl
    rw [hid, List.map_id]
  refine ⟨?_, ?_, ?_, ?_⟩
  · unfold groupsOf
    rw [List.flatMap_map]
    exact flatMap_filter_perm (fun r => r.displayName) (groupKeys hits) hits hkeysnd hcov
  · intro kg hkg
    unfold groupsOf at hkg
    rcases List.mem_map.mp hkg with ⟨k, _, rfl⟩
    rfl
  · rw [hfst]; exact hkeysnd
  · rw [hfst]
    unfold groupKeys
    exact pairwise_stableSort strLE strLE_trans strLE_total _

/-- Witness for C4 (amended): the `"ALAN"` group of the example consists of
the hit rows displaying `"ALAN"`. -/
theorem C4_witness :
    ("ALAN", [rowAlan]).2 =
      [rowAlice, rowAlan].filter (fun r => r.displayName == ("ALAN", [rowAlan]).1) :=
  (C4_amended_grouped_by_displayName [rowAlice, rowAlan]).2.1 ("ALAN", [rowAlan])
    (by decide)

/-- Counterexample for C5: a group of two records with identical parseable
`updated` timestamps, where the server returned id `"B"` before id `"A"`.
The claim's tie-break by record id ascending demands `[rowTieA, rowTieB]`
(as the spec-side sort produces); the code's sort is stable and keeps the
server order `[rowTieB, rowTieA]`, so the keeper differs. -/
theorem C5_counterexample :
    sortGroup toDTex [rowTieB, rowTieA] = [rowTieB, rowTieA] ∧
    specSortGroup toDTex [rowTieB, rowTieA] = [rowTieA, rowTieB] ∧
    toDTex rowTieB.updated = toDTex rowTieA.updated ∧
    (toDTex rowTieA.updated).isSome = true ∧
    strLE rowTieA.memberId rowTieB.memberId = true ∧
    rowTieA ≠ rowTieB := by
  refine ⟨?_, ?_, ?_, ?_, ?_, ?_⟩ <;> decide

/-- C5 (amended): whenever any record of the group has a parseable `updated`
or `created`, the group is sorted by the lexicographic key
(`updated` descending, then `created` descending, unparseable last); the sort
permutes the group, the output is sorted under that key order, and when no
timestamp in the group parses the server order is kept unchanged.  Ties under
the full key keep the server-returned order (stable sort); record ids play no
part. -/
theorem C5_amended_lex_sort_stable :
    ∀ (toDT : String → Option Nat) (g : List Row),
      List.Perm (sortGroup toDT g) g
      ∧ ((∀ r ∈ g, toDT r.updated = none ∧ toDT r.created = none) →
          sortGroup toDT g = g)
      ∧ (sortGroup toDT g).Pairwise (fun a b => rowLE toDT a b = true) := by
  intro toDT g
  refine ⟨?_, ?_, ?_⟩
  · unfold sortGroup
    by_cases h : ((g.any fun r => (toDT r.updated).isSome) ||
        (g.any fun r => (toDT r.created).isSome)) = true
    · rw [if_pos h]; exact perm_stableSort _ g
    · rw [if_neg h]
  · intro hall
    unfold sortGroup
    rw [if_neg ?hcond]
    case hcond =>
      simp only [Bool.or_eq_true, List.any_eq_true]
      rintro (⟨r, hr, hs⟩ | ⟨r, hr, hs⟩)
      · rw [(hall r hr).1] at hs; simp at hs
      · rw [(hall r hr).2] at hs; simp at hs
  · unfold sortGroup
    by_cases h : ((g.any fun r => (toDT r.updated).isSome) ||
        (g.any fun r => (toDT r.created).isSome)) = true
    · rw [if_pos h]
      exact pairwise_stableSort (rowLE toDT) (rowLE_trans toDT) (rowLE_total toDT) g
    · rw [if_neg h]
      simp only [Bool.or_eq_true, List.any_eq_true, not_or] at h
      have hall : ∀ r ∈ g, toDT r.updated = none ∧ toDT r.created = none := by
        intro r hr
        constructor
        · cases hu : toDT r.updated with
          | none => rfl
          | some v => exact absurd ⟨r, hr, by simp [hu]⟩ h.1
        · cases hc : toDT r.created with
          | none => rfl
          | some v => exact absurd ⟨r, hr, by simp [hc]⟩ h.2
      apply pairwise_of_mem
      intro a ha b hb
      unfold rowLE
      rw [(hall a ha).1, (hall b hb).1, if_pos rfl, (hall a ha).2, (hall b hb).2]
      rfl

/-- Witness for C5 (amended): a group none of whose timestamps parse is left
in server-returned order. -/
theorem C5_witness : sortGroup toDTnone [rowAlice, rowAlan] = [rowAlice, rowAlan] :=
  (C5_amended_lex_sort_stable toDTnone [rowAlice, rowAlan]).2.1 (by decide)

/-- Counterexample for C7: the missing list repeats the name `"A"` (the input
list is not deduplicated), so the plan pairs `"A"` twice, violating "no name
appears twice across the plan". -/
theorem C7_counterexample :
    dryRunMapping 5 ["A", "A"] ["X", "Y"] = [("A", "X"), ("A", "Y")] ∧
    (dryRunMapping 5 ["A", "A"] ["X", "Y"]).map Prod.fst = ["A", "A"] ∧
    ¬ ((dryRunMapping 5 ["A", "A"] ["X", "Y"]).map Prod.fst).Nodup := by
  refine ⟨?_, ?_, ?_⟩ <;> decide

/-- C7 (amended): the dry-run plan is the positional zip of the missing names
with the deduplicated candidate ids, truncated to
`min(limit, len(missing), len(deduplicated candidates))`; no id appears twice
(ids are deduplicated first), and the names of the plan are pairwise distinct
whenever the missing list itself is duplicate-free — but not in general, since
the missing list may repeat a name. -/
theorem C7_amended_plan_zip :
    ∀ (limit : Nat) (missing recycle : List String),
      (dryRunMapping limit missing recycle).length =
        min limit (min missing.length (dedupeKeepOrder recycle).length)
      ∧ (dryRunMapping limit missing recycle).map Prod.fst =
          missing.take (min limit (min missing.length (dedupeKeepOrder recycle).length))
      ∧ (dryRunMapping limit missing recycle).map Prod.snd =
          (dedupeKeepOrder recycle).take
            (min limit (min missing.length (dedupeKeepOrder recycle).length))
      ∧ ((dryRunMapping limit missing recycle).map Prod.snd).Nodup
      ∧ (missing.Nodup → ((dryRunMapping limit missing recycle).map Prod.fst).Nodup) := by
  intro limit missing recycle
  have hnm : min limit (min missing.length (dedupeKeepOrder recycle).length) ≤
      missing.length := by omega
  have hnr : min limit (min missing.length (dedupeKeepOrder recycle).length) ≤
      (dedupeKeepOrder recycle).length := by omega
  rcases zip_take_spec (min limit (min missing.length (dedupeKeepOrder recycle).length))
    missing (dedupeKeepOrder recycle) hnm hnr with ⟨h1, h2, h3⟩
  have hmap : dryRunMapping limit missing recycle =
      (missing.zip (dedupeKeepOrder recycle)).take
        (min limit (min missing.length (dedupeKeepOrder recycle).length)) := rfl
  refine ⟨?_, ?_, ?_, ?_, ?_⟩
  · rw [hmap]; exact h3
  · rw [hmap]; exact h1
  · rw [hmap]; exact h2
  · rw [hmap, h2]
    exact (List.take_sublist _ _).nodup (nodup_dedupeKeepOrder recycle)
  · intro hnd
    rw [hmap, h1]
    exact (List.take_sublist _ _).nodup hnd

/-- Witness for C7 (amended): with a duplicate-free missing list the plan's
names are pairwise distinct (and the duplicate candidate id `"X"` has been
deduplicated away). -/
theorem C7_witness :
    ((dryRunMapping 5 ["A", "B"] ["X", "X", "Y"]).map Prod.fst).Nodup :=
  (C7_amended_plan_zip 5 ["A", "B"] ["X", "X", "Y"]).2.2.2.2 (by decide)

/-- Counterexample for C8: pasting the same name on two lines leaves both
occurrences in the list handed to the search loop — no deduplication takes
place. -/
theorem C8_counterexample :
    prepare_names false "AA\nAA" = ["AA", "AA"] ∧
    dedupeKeepOrder (prepare_names false "AA\nAA") ≠ prepare_names false "AA\nAA" := by
  refine ⟨?_, ?_⟩ <;> decide

/-- C8 (amended): the input is processed line by line in order — each line is
kept iff it is non-blank and its normalization is nonempty, contributing its
normalized form in place — and truncated to the first 150 entries; every kept
name is nonempty, but exact duplicates are NOT removed: the same normalized
name occurs once per contributing input line. -/
theorem C8_amended_no_dedup :
    ∀ (rs : Bool) (text : String),
      prepare_names rs text = ((pySplitLines text).filterMap (keepLine rs)).take 150
      ∧ (prepare_names rs text).length ≤ 150
      ∧ (∀ n ∈ prepare_names rs text, n ≠ "") := by
  intro rs text
  refine ⟨?_, ?_, ?_⟩
  · simp only [prepare_names]
    rw [map_filter_eq_filterMap, filterMap_filter]
    rfl
  · simp only [prepare_names]
    exact List.length_take_le _ _
  · intro n hn
    simp only [prepare_names] at hn
    have hn' := List.mem_of_mem_take hn
    rcases List.mem_map.mp hn' with ⟨a, hamem, rfl⟩
    have hq := (List.mem_filter.mp hamem).2
    simpa using hq

/-- Witness for C8 (amended): the kept name of the two-line example is
nonempty. -/
theorem C8_witness : ("AA" : String) ≠ "" :=
  (C8_amended_no_dedup false "AA\nAA").2.2 "AA" (by decide)

/-- Counterexample for C9: a 2xx response whose body is the single JSON array
`"[1, 2]"`.  The call returns a one-element list holding the array itself,
not the two contained items, and the extractor then fails on that element
(Python `list.get` — an `AttributeError`), so an array body never yields its
contained records. -/
theorem C9_counterexample :
    post_list_members_items pjEx "[1, 2]" = .ok [Json.arr [Json.num 1, Json.num 2]] ∧
    (Except.ok [Json.arr [Json.num 1, Json.num 2]] : Except String (List Json)) ≠
      .ok [Json.num 1, Json.num 2] ∧
    extract_member_obj (Json.arr [Json.num 1, Json.num 2]) = .error () := by
  refine ⟨rfl, ?_, rfl⟩
  intro h
  simp at h

/-- C9 (amended): a body all of whose non-blank lines parse (NDJSON) yields
one item per line; a body whose first non-blank line does not parse is
replaced wholesale by the single-element list holding the parse of the entire
body (so a multi-line JSON array yields one array item, not its elements), and
is a hard error when the whole body does not parse either. -/
theorem C9_amended_body_shapes :
    ∀ (pj : String → Option Json) (text : String),
      ((∀ ln ∈ (pySplitLines (pyStrip text)).filter (fun ln => (pyStrip ln) ≠ ""),
          (pj ln).isSome = true) →
        post_list_members_items pj text =
          .ok (((pySplitLines (pyStrip text)).filter
            (fun ln => (pyStrip ln) ≠ "")).filterMap pj))
      ∧ (∀ ln rest,
          (pySplitLines (pyStrip text)).filter (fun ln => (pyStrip ln) ≠ "") =
            ln :: rest →
          pj ln = none →
          post_list_members_items pj text =
            (match pj (pyStrip text) with
             | some j => .ok [j]
             | none => .error "JSONDecodeError")) := by
  intro pj text
  constructor
  · intro hall
    unfold post_list_members_items
    by_cases he : pyStrip text = ""
    · rw [if_pos he, he]
      rfl
    · rw [if_neg he]
      exact parseLines_all_ok pj (pyStrip text) _ [] hall
  · intro ln rest hlines hln
    unfold post_list_members_items
    by_cases he : pyStrip text = ""
    · rw [he] at hlines
      have hnil : ((pySplitLines "").filter (fun l => (pyStrip l) ≠ "")) =
          ([] : List String) := rfl
      rw [hnil] at hlines
      simp at hlines
    · rw [if_neg he, hlines]
      simp only [parseLines, hln]

/-- Witness for C9 (amended): a two-line NDJSON body yields its two items. -/
theorem C9_witness :
    post_list_members_items pjEx "1\n2" = .ok [Json.num 1, Json.num 2] := by
  have h := (C9_amended_body_shapes pjEx "1\n2").1 (by decide)
  rw [h]
  rfl

end Passkit
